import Mathlib

/-!
Verification of the SNPrank program (snprank.py): a PageRank-like ranking of
the nodes of a GAIN interaction matrix.

The embedding is shallow: numpy float arrays become rational-valued matrices
indexed by Fin n (`Matrix (Fin n) (Fin n) ℚ`), the unbounded convergence loop
becomes a fuel-indexed loop returning `Option`, and the one exception raised
by `calculate_snprank` (non-square input) becomes `Except String`.  Rational
arithmetic stands in for IEEE floating point; the exact-zero tests of the
source (`colsum.nonzero()`, the squareness check) are exact equality tests
here as well.
-/

-- The Batteries rational-number operations are `irreducible`, which blocks
-- elaborator-side evaluation by `decide` on concrete inputs; the kernel does
-- not consult reducibility, so making them semireducible is sound.
attribute [local semireducible] Rat.add Rat.mul Rat.inv Rat.sub Rat.ofScientific

namespace SNPrank

/-- Source `normalize(xs)`: `return xs/sum(xs)` — divide a vector entrywise by
the sum of its entries (L1 renormalization). -/
def normalize {n : ℕ} (xs : Fin n → ℚ) : Fin n → ℚ :=
  fun i => xs i / ∑ j, xs j

/-- Source `colsum = self.GAIN.sum(axis=0)`: the vector of column sums. -/
def colsum {n : ℕ} (G : Matrix (Fin n) (Fin n) ℚ) (j : Fin n) : ℚ :=
  ∑ i, G i j

/-- Source lines 49–57: `D = zeros((n,n))`, then for each index `i` with
`colsum[i]` nonzero (`colsum.nonzero()[0]`, an exact comparison with zero),
`D[i][i] = 1/colsum[i]`.  The resulting matrix is diagonal, with reciprocal
column sums on nonzero-sum columns and zero on zero-sum (dangling) columns. -/
def D {n : ℕ} (G : Matrix (Fin n) (Fin n) ℚ) : Matrix (Fin n) (Fin n) ℚ :=
  Matrix.diagonal fun j => if colsum G j = 0 then 0 else 1 / colsum G j

/-- Source lines 50–57: `T_nz = ones(n)`, then `T_nz[i] = 1 - gamma` for each
`i` with nonzero column sum.  Dangling columns keep the undamped value 1. -/
def T_nz {n : ℕ} (G : Matrix (Fin n) (Fin n) ℚ) (gamma : ℚ) (j : Fin n) : ℚ :=
  if colsum G j = 0 then 1 else 1 - gamma

/-- Source line 76 (CPU branch; the GPU branch at line 73 computes the same
expression): `T = (gamma * dot(self.GAIN,D)) +
(self.GAIN.diagonal().reshape(n,1) * T_nz) / self.GAIN.trace()`.
The broadcast `diagonal().reshape(n,1) * T_nz` is the outer product
`vecMulVec`, and the entrywise division by the scalar trace is scalar
multiplication by its inverse (`x / t = t⁻¹ * x`).  Caveat: at `t = 0` the ℚ
inverse is 0 where IEEE division yields NaN, so this definition is faithful
only on the nonzero-trace domain; every theorem below that touches the
teleportation term either assumes `trace ≠ 0` or does not depend on it.  The
degenerate zero-trace path is modelled faithfully by the float-value (`FV`)
development further down. -/
def T {n : ℕ} (G : Matrix (Fin n) (Fin n) ℚ) (gamma : ℚ) : Matrix (Fin n) (Fin n) ℚ :=
  gamma • (G * D G) + (G.trace)⁻¹ • Matrix.vecMulVec G.diag (T_nz G gamma)

/-- Source line 79: `r = (ones(n)).reshape(n,1)/n` — the uniform prior. -/
def r0 (n : ℕ) : Fin n → ℚ :=
  fun _ => 1 / (n : ℚ)

/-- Source line 86, loop body: `r = normalize(dot(T,r))`. -/
def step {n : ℕ} (Tm : Matrix (Fin n) (Fin n) ℚ) (r : Fin n → ℚ) : Fin n → ℚ :=
  normalize (Tm.mulVec r)

/-- The sequence of rank vectors produced by the loop: the uniform prior
followed by repeated applications of `step`. -/
def rIter {n : ℕ} (Tm : Matrix (Fin n) (Fin n) ℚ) : ℕ → (Fin n → ℚ)
  | 0 => r0 n
  | k + 1 => step Tm (rIter Tm k)

/-- Source line 87, exit test: `all( abs(r-r_old) < threshold )` with
`threshold = 10**(-4)` (line 82) — every entry of the difference is strictly
below the fixed absolute tolerance 1/10000. -/
def converged {n : ℕ} (r r_old : Fin n → ℚ) : Prop :=
  ∀ i, |r i - r_old i| < 1 / 10000

instance convergedDecidable {n : ℕ} (r r_old : Fin n → ℚ) : Decidable (converged r r_old) :=
  decidable_of_iff (∀ i, |r i - r_old i| < 1 / 10000) Iff.rfl

/-- Source lines 85–88: `while True: r_old, r = r, normalize(dot(T,r));
if all(abs(r-r_old) < threshold): break`.  The source loop has no iteration
cap; the embedding makes the loop total with a fuel argument, `none` meaning
the loop has not exited within `fuel` iterations. -/
def powerLoop {n : ℕ} (Tm : Matrix (Fin n) (Fin n) ℚ) (r : Fin n → ℚ) : ℕ → Option (Fin n → ℚ)
  | 0 => none
  | fuel + 1 =>
    if converged (step Tm r) r then some (step Tm r) else powerLoop Tm (step Tm r) fuel

/-- Number of columns of the parsed array: numpy's `shape` second component,
the common width of the (mutually consistent) data rows. -/
def ncols (rows : List (List ℚ)) : ℕ :=
  (rows.headD []).length

/-- View of the parsed rectangular array as a square matrix of dimension `n`
(used after the squareness check `m == n` has passed). -/
def toMat (rows : List (List ℚ)) (n : ℕ) : Matrix (Fin n) (Fin n) ℚ :=
  fun i j => (rows.getD i.1 []).getD j.1 0

/-- The diagonal (`self.GAIN.diagonal()`, the main-effect vector) of the
parsed matrix, as a list. -/
def diagList (rows : List (List ℚ)) : List ℚ :=
  (List.finRange (ncols rows)).map fun i => toMat rows (ncols rows) i i

/-- Source `calculate_snprank` (lines 33–90): check squareness (`m,n =
self.GAIN.shape; if m != n: raise ValueError("Input is not an NxN matrix")`),
build the transition matrix, run the power iteration from the uniform prior,
and return the converged rank vector together with the diagonal of the
original GAIN matrix.  `.ok none` means the loop did not exit within `fuel`
iterations (the source would still be looping). -/
def calculate_snprank (rows : List (List ℚ)) (gamma : ℚ) (fuel : ℕ) :
    Except String (Option (List ℚ × List ℚ)) :=
  if rows.length ≠ ncols rows then .error "Input is not an NxN matrix"
  else
    match powerLoop (T (toMat rows (ncols rows)) gamma) (r0 (ncols rows)) fuel with
    | none => .ok none
    | some r => .ok (some ((List.finRange (ncols rows)).map r, diagList rows))

/-- The comparison used to model `sorted(..., key=lambda item:item[1],
reverse=True)`: row `a` may precede row `b` iff `a`'s score is at least
`b`'s.  Python's `sorted` is stable; `insertionSort` with this total
preorder is the stable descending-by-score sort. -/
def scoreGE (a b : String × ℚ × ℚ) : Prop :=
  b.2.1 ≤ a.2.1

instance scoreGEDecidable : DecidableRel scoreGE :=
  fun a b => inferInstanceAs (Decidable (b.2.1 ≤ a.2.1))

instance scoreGETotal : IsTotal (String × ℚ × ℚ) scoreGE :=
  ⟨fun a b => (le_total b.2.1 a.2.1).imp id id⟩

instance scoreGETrans : IsTrans (String × ℚ × ℚ) scoreGE :=
  ⟨fun _ _ _ hab hbc => le_trans hbc hab⟩

/-- Source `print_to_file` (lines 92–99): `sort_temp = sorted(zip(SNPs,
snp_rank, ig), key=lambda item:item[1], reverse=True)` — zip the names,
scores and main effects into triples (truncating to the shortest input, as
Python's `zip` does) and stably sort by score, descending.  The embedding
returns the ordered rows; serialization to text is outside its scope. -/
def print_to_file (SNPs : List String) (snp_rank ig : List ℚ) : List (String × ℚ × ℚ) :=
  List.insertionSort scoreGE (SNPs.zip (snp_rank.zip ig))

/-- Source `SNPrank.__init__` (lines 23–31), data part: `self.GAIN =
array([row for row in reader], dtype=float64)`.  A token that does not parse
as a number (`none`) or data rows of mutually inconsistent widths make the
numpy array construction fail; the header row is not consulted at all. -/
def buildGAIN (records : List (List (Option ℚ))) : Except String (List (List ℚ)) :=
  if records.all fun row => row.length = (records.headD []).length then
    if records.all fun row => row.all fun t => t.isSome then
      .ok (records.map fun row => row.map fun t => t.getD 0)
    else .error "could not convert string to float"
  else .error "setting an array element with a sequence"

/-- Source `main` (lines 131–140), post-parsing part: run `calculate_snprank`
on the parsed matrix and, if it returns, format the result rows with
`print_to_file`.  An exception in `calculate_snprank` propagates and no
output rows are produced. -/
def runPipeline (SNPs : List String) (rows : List (List ℚ)) (gamma : ℚ) (fuel : ℕ) :
    Except String (Option (List (String × ℚ × ℚ))) :=
  match calculate_snprank rows gamma fuel with
  | .error e => .error e
  | .ok none => .ok none
  | .ok (some (r, ig)) => .ok (some (print_to_file SNPs r ig))

/-- Source `main` (lines 113–140) from the parsed text onward: build the GAIN
matrix from the data records (header row given separately, exactly as
`__init__` keeps it), then run the pipeline. -/
def fullRun (SNPs : List String) (records : List (List (Option ℚ))) (gamma : ℚ) (fuel : ℕ) :
    Except String (Option (List (String × ℚ × ℚ))) :=
  match buildGAIN records with
  | .error e => .error e
  | .ok rows => runPipeline SNPs rows gamma fuel

deriving instance DecidableEq for Except

/-- Concrete 2×2 example matrix `[[2,1],[1,2]]` from the specification's
end-to-end scenario, used by witnesses. -/
def gEx : Matrix (Fin 2) (Fin 2) ℚ :=
  fun i j => if i = j then 2 else 1

/-- Concrete matrix with a dangling (all-zero) second column, used by
witnesses: `[[1,0],[1,0]]`. -/
def gZ : Matrix (Fin 2) (Fin 2) ℚ :=
  fun _ j => if j = 0 then 1 else 0

/-- Concrete token records of a 3×3 identity matrix (all tokens numeric), used
with a 2-name header to exhibit that the header width is never compared to
the body width. -/
def recsId3 : List (List (Option ℚ)) :=
  [[some 1, some 0, some 0], [some 0, some 1, some 0], [some 0, some 0, some 1]]

/-- IEEE-style float value: a finite value (represented exactly by a
rational; binary rounding is not modelled), a signed infinity, or NaN.  The
rational development above is exact for inputs whose arithmetic stays finite;
this refinement exists because the source's unguarded division by a zero
trace produces NaN (`0.0/0.0`), which ℚ — where division by zero yields 0 —
cannot represent.  Signed zero is not modelled (irrelevant here). -/
inductive FV where
  | fin (q : ℚ)
  | pinf
  | ninf
  | nan
  deriving DecidableEq

/-- IEEE negation on float values. -/
def FV.neg : FV → FV
  | fin q => fin (-q)
  | pinf => ninf
  | ninf => pinf
  | nan => nan

/-- IEEE addition: NaN propagates, opposite infinities give NaN.  (The match
is nested left-to-right so that a NaN left operand propagates definitionally,
the way IEEE hardware short-circuits nothing but our proofs can.) -/
def FV.add : FV → FV → FV
  | nan, _ => nan
  | pinf, y => match y with
    | nan => nan
    | ninf => nan
    | _ => pinf
  | ninf, y => match y with
    | nan => nan
    | pinf => nan
    | _ => ninf
  | fin a, y => match y with
    | nan => nan
    | pinf => pinf
    | ninf => ninf
    | fin b => fin (a + b)

/-- IEEE subtraction, as addition of the negation. -/
def FV.sub (a b : FV) : FV :=
  FV.add a (FV.neg b)

/-- IEEE multiplication: NaN propagates, zero times infinity is NaN. -/
def FV.mul : FV → FV → FV
  | nan, _ => nan
  | fin a, y => match y with
    | nan => nan
    | fin b => fin (a * b)
    | pinf => if a = 0 then nan else if 0 < a then pinf else ninf
    | ninf => if a = 0 then nan else if 0 < a then ninf else pinf
  | pinf, y => match y with
    | nan => nan
    | fin b => if b = 0 then nan else if 0 < b then pinf else ninf
    | pinf => pinf
    | ninf => ninf
  | ninf, y => match y with
    | nan => nan
    | fin b => if b = 0 then nan else if 0 < b then ninf else pinf
    | pinf => ninf
    | ninf => pinf

/-- IEEE division: NaN propagates, `0/0` and `inf/inf` are NaN, a nonzero
finite value over zero is a signed infinity (numpy emits a RuntimeWarning for
the zero divisions but raises nothing). -/
def FV.div : FV → FV → FV
  | nan, _ => nan
  | fin a, y => match y with
    | nan => nan
    | fin b =>
        if b = 0 then (if a = 0 then nan else if 0 < a then pinf else ninf)
        else fin (a / b)
    | pinf => fin 0
    | ninf => fin 0
  | pinf, y => match y with
    | fin b => if 0 ≤ b then pinf else ninf
    | _ => nan
  | ninf, y => match y with
    | fin b => if 0 ≤ b then ninf else pinf
    | _ => nan

/-- IEEE absolute value. -/
def FV.abs : FV → FV
  | fin q => fin |q|
  | nan => nan
  | _ => pinf

/-- IEEE less-than: any comparison with NaN is false. -/
def FV.blt : FV → FV → Bool
  | nan, _ => false
  | fin a, y => match y with
    | nan => false
    | fin b => a < b
    | pinf => true
    | ninf => false
  | pinf, _ => false
  | ninf, y => match y with
    | nan => false
    | ninf => false
    | _ => true

/-- The exact zero test used by `nonzero()`: `x == 0.0` (false for NaN and
the infinities). -/
def FV.isZero : FV → Bool
  | fin q => q = 0
  | _ => false

/-- Sequential sum of a list of float values, starting from 0 (numpy `sum`). -/
def fvSum (l : List FV) : FV :=
  l.foldl FV.add (FV.fin 0)

/-- Float-value model of `colsum = self.GAIN.sum(axis=0)`. -/
def colsumF {n : ℕ} (G : Fin n → Fin n → FV) (j : Fin n) : FV :=
  fvSum ((List.finRange n).map fun i => G i j)

/-- Float-value model of the D matrix of lines 49–57. -/
def DF {n : ℕ} (G : Fin n → Fin n → FV) : Fin n → Fin n → FV :=
  fun i j =>
    if i = j then
      (if (colsumF G j).isZero then FV.fin 0 else FV.div (FV.fin 1) (colsumF G j))
    else FV.fin 0

/-- Float-value model of the T_nz vector of lines 50–57. -/
def T_nzF {n : ℕ} (G : Fin n → Fin n → FV) (gamma : ℚ) (j : Fin n) : FV :=
  if (colsumF G j).isZero then FV.fin 1 else FV.fin (1 - gamma)

/-- Float-value model of `self.GAIN.trace()`. -/
def traceF {n : ℕ} (G : Fin n → Fin n → FV) : FV :=
  fvSum ((List.finRange n).map fun i => G i i)

/-- Float-value model of the transition matrix of line 76, entrywise:
`gamma * dot(G,D)[i][j] + (G[i][i] * T_nz[j]) / trace`. -/
def TF {n : ℕ} (G : Fin n → Fin n → FV) (gamma : ℚ) : Fin n → Fin n → FV :=
  fun i j =>
    FV.add
      (FV.mul (FV.fin gamma)
        (fvSum ((List.finRange n).map fun k => FV.mul (G i k) (DF G k j))))
      (FV.div (FV.mul (G i i) (T_nzF G gamma j)) (traceF G))

/-- Float-value model of the uniform prior of line 79. -/
def r0F (n : ℕ) : Fin n → FV :=
  fun _ => FV.fin (1 / (n : ℚ))

/-- Float-value model of `dot(T, r)`. -/
def mulVecF {n : ℕ} (M : Fin n → Fin n → FV) (v : Fin n → FV) (i : Fin n) : FV :=
  fvSum ((List.finRange n).map fun j => FV.mul (M i j) (v j))

/-- Float-value model of `normalize`. -/
def normalizeF {n : ℕ} (xs : Fin n → FV) : Fin n → FV :=
  fun i => FV.div (xs i) (fvSum ((List.finRange n).map xs))

/-- Float-value model of the loop body `normalize(dot(T,r))`. -/
def stepF {n : ℕ} (Tm : Fin n → Fin n → FV) (r : Fin n → FV) : Fin n → FV :=
  normalizeF (mulVecF Tm r)

/-- Float-value model of `all(abs(r - r_old) < threshold)`: every elementwise
comparison must be true; a NaN comparison is false. -/
def convergedF {n : ℕ} (r r_old : Fin n → FV) : Bool :=
  (List.finRange n).all fun i =>
    FV.blt (FV.abs (FV.sub (r i) (r_old i))) (FV.fin (1 / 10000))

/-- Float-value model of the uncapped `while True` loop of lines 85–88, with
fuel; `none` means the loop has not exited within `fuel` iterations. -/
def powerLoopF {n : ℕ} (Tm : Fin n → Fin n → FV) (r : Fin n → FV) :
    ℕ → Option (Fin n → FV)
  | 0 => none
  | fuel + 1 =>
    if convergedF (stepF Tm r) r then some (stepF Tm r)
    else powerLoopF Tm (stepF Tm r) fuel

/-- The parsed matrix viewed with float-value entries (parsed literals are
finite). -/
def toMatF (rows : List (List ℚ)) (n : ℕ) : Fin n → Fin n → FV :=
  fun i j => FV.fin ((rows.getD i.1 []).getD j.1 0)

/-- Float-value model of `calculate_snprank` (lines 33–90), identical in
structure to the rational one but with IEEE special-value propagation. -/
def calculate_snprankF (rows : List (List ℚ)) (gamma : ℚ) (fuel : ℕ) :
    Except String (Option (List FV × List FV)) :=
  if rows.length ≠ ncols rows then .error "Input is not an NxN matrix"
  else
    match powerLoopF (TF (toMatF rows (ncols rows)) gamma) (r0F (ncols rows)) fuel with
    | none => .ok none
    | some r =>
        .ok (some ((List.finRange (ncols rows)).map r,
          (List.finRange (ncols rows)).map fun i => toMatF rows (ncols rows) i i))

/-- C1: for every square matrix G with nonzero trace and every damping factor
gamma, the transition matrix built by the rank engine satisfies, entrywise,
`T[i][j] = gamma * Σ_k G[i][k]*D[k][j] + G[i][i]*T_nz[j]/trace`, where `D`
and `T_nz` are the degree-normalization matrix and damping vector derived
from G's column sums. -/
theorem transition_matrix_entry {n : ℕ} (G : Matrix (Fin n) (Fin n) ℚ) (gamma : ℚ)
    (_htr : G.trace ≠ 0) (i j : Fin n) :
    T G gamma i j =
      gamma * (∑ k, G i k * D G k j) + G i i * T_nz G gamma j / G.trace := by
  simp only [T, Matrix.add_apply, Matrix.smul_apply, Matrix.mul_apply,
    Matrix.vecMulVec_apply, Matrix.diag, smul_eq_mul, div_eq_mul_inv]
  ring

/-- Witness for C1 at the concrete matrix `[[2,1],[1,2]]` with gamma = 0.85. -/
theorem transition_matrix_entry_witness :
    gEx.trace ≠ 0 ∧
      T gEx (17/20) 0 1 =
        (17/20) * (∑ k, gEx 0 k * D gEx k 1) + gEx 0 0 * T_nz gEx (17/20) 1 / gEx.trace :=
  ⟨by decide, transition_matrix_entry gEx (17/20) (by decide) 0 1⟩

/-- C2: a column j is dangling exactly when its column sum equals zero by the
exact equality test (here exact rational equality, mirroring the source's
exact floating-point zero check with no epsilon band); for such j the
degree-normalization entry is `D[j][j] = 0` and the damping entry is
`T_nz[j] = 1` (undamped), while a column with nonzero sum gets
`D[j][j] = 1/colsum[j]` and `T_nz[j] = 1 - gamma`. -/
theorem dangling_column_policy {n : ℕ} (G : Matrix (Fin n) (Fin n) ℚ) (gamma : ℚ) (j : Fin n) :
    (colsum G j = 0 → D G j j = 0 ∧ T_nz G gamma j = 1) ∧
    (colsum G j ≠ 0 → D G j j = 1 / colsum G j ∧ T_nz G gamma j = 1 - gamma) := by
  refine ⟨fun h => ?_, fun h => ?_⟩ <;>
    simp [D, T_nz, Matrix.diagonal_apply_eq, h]

/-- Witness for C2 on the matrix `[[1,0],[1,0]]`: column 0 has sum 2 (so
reciprocal normalization and damping 1-gamma apply) and column 1 is dangling
(so its D entry is 0 and its damping entry is 1). -/
theorem dangling_column_policy_witness :
    (D gZ 1 1 = 0 ∧ T_nz gZ (17/20) 1 = 1) ∧
      (D gZ 0 0 = 1 / colsum gZ 0 ∧ T_nz gZ (17/20) 0 = 1 - 17/20) :=
  ⟨(dangling_column_policy gZ (17/20) 1).1 (by decide),
   (dangling_column_policy gZ (17/20) 0).2 (by decide)⟩

/-- C6: a non-square parsed matrix (row count different from column count)
makes the rank operation fail with the ValueError "Input is not an NxN
matrix" for every fuel value — in particular before any iteration — and the
pipeline propagates the error, producing no output rows. -/
theorem nonsquare_rejected (SNPs : List String) (rows : List (List ℚ)) (gamma : ℚ) (fuel : ℕ)
    (h : rows.length ≠ ncols rows) :
    calculate_snprank rows gamma fuel = .error "Input is not an NxN matrix" ∧
    runPipeline SNPs rows gamma fuel = .error "Input is not an NxN matrix" := by
  have h1 : calculate_snprank rows gamma fuel = .error "Input is not an NxN matrix" := by
    simp [calculate_snprank, h]
  exact ⟨h1, by simp [runPipeline, h1]⟩

/-- Helper: running the loop from the k-th iterate and getting a result means
some later consecutive pair of iterates passed the convergence test, and the
result is the iterate that passed it. -/
theorem powerLoop_some_conv {n : ℕ} (Tm : Matrix (Fin n) (Fin n) ℚ) :
    ∀ (fuel k : ℕ) (v : Fin n → ℚ), powerLoop Tm (rIter Tm k) fuel = some v →
      ∃ j, v = rIter Tm (k + j + 1) ∧ converged (rIter Tm (k + j + 1)) (rIter Tm (k + j)) := by
  intro fuel
  induction fuel with
  | zero => intro k v h; simp [powerLoop] at h
  | succ f ih =>
    intro k v h
    have hstep : step Tm (rIter Tm k) = rIter Tm (k + 1) := rfl
    rw [powerLoop, hstep] at h
    by_cases hc : converged (rIter Tm (k + 1)) (rIter Tm k)
    · rw [if_pos hc] at h
      exact ⟨0, (Option.some.inj h).symm, hc⟩
    · rw [if_neg hc] at h
      obtain ⟨j, hj1, hj2⟩ := ih (k + 1) v h
      have harith : k + 1 + j = k + (j + 1) := by omega
      rw [harith] at hj1 hj2
      exact ⟨j + 1, hj1, hj2⟩

/-- Helper: if no consecutive pair of iterates ever satisfies the convergence
test, the loop returns nothing for every amount of fuel (the source loop,
which has no iteration cap, would run forever). -/
theorem powerLoop_none_of_never {n : ℕ} (Tm : Matrix (Fin n) (Fin n) ℚ)
    (hnever : ∀ k, ¬ converged (rIter Tm (k + 1)) (rIter Tm k)) (fuel : ℕ) :
    powerLoop Tm (r0 n) fuel = none := by
  cases hres : powerLoop Tm (r0 n) fuel with
  | none => rfl
  | some v =>
    obtain ⟨j, _, hconv⟩ := powerLoop_some_conv Tm fuel 0 v hres
    have h0 : (0 : ℕ) + j = j := by omega
    rw [h0] at hconv
    exact absurd hconv (hnever j)

/-- C3: the power iteration starts from the uniform vector (every entry 1/N);
each step replaces r by T·r divided by the sum of its entries (L1
renormalization); any value returned by the loop is the first iterate whose
elementwise absolute difference from its predecessor is below the fixed
tolerance 1/10000; and if no consecutive pair of iterates ever meets the
tolerance the loop returns nothing for every fuel bound — the source loop,
having no iteration cap, would run forever. -/
theorem power_iteration_spec {n : ℕ} (G : Matrix (Fin n) (Fin n) ℚ) (gamma : ℚ) :
    (∀ i, r0 n i = 1 / (n : ℚ)) ∧
    (∀ (r : Fin n → ℚ) (i : Fin n), step (T G gamma) r i =
        (T G gamma).mulVec r i / ∑ j, (T G gamma).mulVec r j) ∧
    (∀ (fuel : ℕ) (v : Fin n → ℚ), powerLoop (T G gamma) (r0 n) fuel = some v →
        ∃ k, v = rIter (T G gamma) (k + 1) ∧
          ∀ i, |rIter (T G gamma) (k + 1) i - rIter (T G gamma) k i| < 1 / 10000) ∧
    ((∀ k, ¬ ∀ i, |rIter (T G gamma) (k + 1) i - rIter (T G gamma) k i| < 1 / 10000) →
        ∀ fuel, powerLoop (T G gamma) (r0 n) fuel = none) := by
  refine ⟨fun i => rfl, fun r i => rfl, ?_, ?_⟩
  · intro fuel v h
    obtain ⟨j, hj1, hj2⟩ := powerLoop_some_conv (T G gamma) fuel 0 v h
    have h0 : (0 : ℕ) + j = j := by omega
    rw [h0] at hj1 hj2
    exact ⟨j, hj1, hj2⟩
  · intro hnever fuel
    exact powerLoop_none_of_never (T G gamma) hnever fuel

/-- Witness for C3, applying the specification at the concrete matrix
`[[2,1],[1,2]]` with gamma = 0.85. -/
theorem power_iteration_spec_witness :
    r0 2 0 = 1 / (2 : ℚ) ∧
      step (T gEx (17/20)) (r0 2) 0 =
        (T gEx (17/20)).mulVec (r0 2) 0 / ∑ j, (T gEx (17/20)).mulVec (r0 2) j :=
  ⟨(power_iteration_spec gEx (17/20)).1 0,
   (power_iteration_spec gEx (17/20)).2.1 (r0 2) 0⟩

/-- Helper: the transition matrix, entrywise (scalar form of its definition). -/
theorem T_apply {n : ℕ} (G : Matrix (Fin n) (Fin n) ℚ) (gamma : ℚ) (i j : Fin n) :
    T G gamma i j = gamma * (G * D G) i j + G.trace⁻¹ * (G i i * T_nz G gamma j) := by
  simp only [T, Matrix.add_apply, Matrix.smul_apply, Matrix.vecMulVec_apply, Matrix.diag,
    smul_eq_mul]

/-- Helper: column sums of a nonnegative matrix are nonnegative. -/
theorem colsum_nonneg {n : ℕ} {G : Matrix (Fin n) (Fin n) ℚ}
    (hG : ∀ i j, 0 ≤ G i j) (j : Fin n) : 0 ≤ colsum G j :=
  Finset.sum_nonneg fun i _ => hG i j

/-- Helper: every entry of the degree-normalization matrix is nonnegative. -/
theorem D_entry_nonneg {n : ℕ} {G : Matrix (Fin n) (Fin n) ℚ}
    (hG : ∀ i j, 0 ≤ G i j) (k j : Fin n) : 0 ≤ D G k j := by
  unfold D
  rcases eq_or_ne k j with rfl | hkj
  · rw [Matrix.diagonal_apply_eq]
    split
    · exact le_rfl
    · exact one_div_nonneg.mpr (colsum_nonneg hG k)
  · rw [Matrix.diagonal_apply_ne _ hkj]

/-- Helper: the damping vector is entrywise positive when gamma < 1. -/
theorem T_nz_pos {n : ℕ} {G : Matrix (Fin n) (Fin n) ℚ} {gamma : ℚ}
    (hg1 : gamma < 1) (j : Fin n) : 0 < T_nz G gamma j := by
  unfold T_nz
  split
  · exact one_pos
  · linarith

/-- Helper: the trace of a nonnegative matrix is nonnegative. -/
theorem trace_nonneg {n : ℕ} {G : Matrix (Fin n) (Fin n) ℚ}
    (hG : ∀ i j, 0 ≤ G i j) : 0 ≤ G.trace :=
  Finset.sum_nonneg fun i _ => hG i i

/-- Helper: a nonnegative matrix with nonzero trace has positive trace. -/
theorem trace_pos {n : ℕ} {G : Matrix (Fin n) (Fin n) ℚ}
    (hG : ∀ i j, 0 ≤ G i j) (htr : G.trace ≠ 0) : 0 < G.trace :=
  lt_of_le_of_ne (trace_nonneg hG) (Ne.symm htr)

/-- Helper: a nonnegative matrix with nonzero trace has a strictly positive
diagonal entry. -/
theorem exists_diag_pos {n : ℕ} {G : Matrix (Fin n) (Fin n) ℚ}
    (hG : ∀ i j, 0 ≤ G i j) (htr : G.trace ≠ 0) : ∃ i, 0 < G i i := by
  by_contra hcon
  push_neg at hcon
  apply htr
  have hz : ∀ i, G i i = 0 := fun i => le_antisymm (hcon i) (hG i i)
  calc G.trace = ∑ i, G i i := rfl
    _ = 0 := Finset.sum_eq_zero fun i _ => hz i

/-- Helper: the transition matrix of a valid input is entrywise nonnegative. -/
theorem T_entry_nonneg {n : ℕ} {G : Matrix (Fin n) (Fin n) ℚ} {gamma : ℚ}
    (hG : ∀ i j, 0 ≤ G i j) (hg0 : 0 ≤ gamma) (hg1 : gamma < 1) (i j : Fin n) :
    0 ≤ T G gamma i j := by
  rw [T_apply]
  have h1 : 0 ≤ (G * D G) i j := by
    rw [Matrix.mul_apply]
    exact Finset.sum_nonneg fun k _ => mul_nonneg (hG i k) (D_entry_nonneg hG k j)
  have h2 : 0 ≤ G.trace⁻¹ := inv_nonneg.mpr (trace_nonneg hG)
  exact add_nonneg (mul_nonneg hg0 h1)
    (mul_nonneg h2 (mul_nonneg (hG i i) (T_nz_pos hg1 j).le))

/-- Helper: the transition-matrix row of a node with positive main effect is
strictly positive (the teleportation term contributes positive mass). -/
theorem T_row_pos {n : ℕ} {G : Matrix (Fin n) (Fin n) ℚ} {gamma : ℚ}
    (hG : ∀ i j, 0 ≤ G i j) (htr : G.trace ≠ 0) (hg0 : 0 ≤ gamma) (hg1 : gamma < 1)
    {i : Fin n} (hi : 0 < G i i) (j : Fin n) : 0 < T G gamma i j := by
  rw [T_apply]
  have h1 : 0 ≤ gamma * (G * D G) i j := by
    refine mul_nonneg hg0 ?_
    rw [Matrix.mul_apply]
    exact Finset.sum_nonneg fun k _ => mul_nonneg (hG i k) (D_entry_nonneg hG k j)
  have h2 : 0 < G.trace⁻¹ * (G i i * T_nz G gamma j) :=
    mul_pos (inv_pos.mpr (trace_pos hG htr)) (mul_pos hi (T_nz_pos hg1 j))
  linarith

/-- Helper: one normalization step preserves being a probability vector,
provided the matrix is entrywise nonnegative with one strictly positive row. -/
theorem step_preserves {n : ℕ} (Tm : Matrix (Fin n) (Fin n) ℚ)
    (hT : ∀ i j, 0 ≤ Tm i j) {i₀ : Fin n} (hrow : ∀ j, 0 < Tm i₀ j)
    {r : Fin n → ℚ} (hr : ∀ i, 0 ≤ r i) (hsum : ∑ i, r i = 1) :
    (∀ i, 0 ≤ step Tm r i) ∧ ∑ i, step Tm r i = 1 := by
  have hmv : ∀ i, Tm.mulVec r i = ∑ j, Tm i j * r j := fun i => by
    simp [Matrix.mulVec, Matrix.dotProduct]
  have hy : ∀ i, 0 ≤ Tm.mulVec r i := fun i => by
    rw [hmv]
    exact Finset.sum_nonneg fun j _ => mul_nonneg (hT i j) (hr j)
  obtain ⟨j₀, hj₀⟩ : ∃ j, 0 < r j := by
    by_contra hcon
    push_neg at hcon
    have hz : ∀ j, r j = 0 := fun j => le_antisymm (hcon j) (hr j)
    rw [Finset.sum_eq_zero fun j _ => hz j] at hsum
    exact absurd hsum (by norm_num)
  have hpos : 0 < Tm.mulVec r i₀ := by
    rw [hmv]
    exact Finset.sum_pos' (fun j _ => mul_nonneg (hT i₀ j) (hr j))
      ⟨j₀, Finset.mem_univ j₀, mul_pos (hrow j₀) hj₀⟩
  have hs : 0 < ∑ i, Tm.mulVec r i :=
    Finset.sum_pos' (fun i _ => hy i) ⟨i₀, Finset.mem_univ i₀, hpos⟩
  constructor
  · intro i
    show 0 ≤ Tm.mulVec r i / ∑ j, Tm.mulVec r j
    exact div_nonneg (hy i) hs.le
  · show (∑ i, Tm.mulVec r i / ∑ j, Tm.mulVec r j) = 1
    rw [← Finset.sum_div]
    exact div_self hs.ne'

/-- C4: for a valid input (square nonnegative G, nonzero trace, gamma in
[0,1)), the rank vector is a probability distribution — entrywise nonnegative
with entries summing to exactly 1 — after every normalization step (every
iterate, the uniform prior included) and in particular for any vector the
loop returns at convergence. -/
theorem rank_vector_probability {n : ℕ} (G : Matrix (Fin n) (Fin n) ℚ) (gamma : ℚ)
    (hn : 0 < n) (hG : ∀ i j, 0 ≤ G i j) (htr : G.trace ≠ 0)
    (hg0 : 0 ≤ gamma) (hg1 : gamma < 1) :
    (∀ k, (∀ i, 0 ≤ rIter (T G gamma) k i) ∧ ∑ i, rIter (T G gamma) k i = 1) ∧
    (∀ (fuel : ℕ) (v : Fin n → ℚ), powerLoop (T G gamma) (r0 n) fuel = some v →
        (∀ i, 0 ≤ v i) ∧ ∑ i, v i = 1) := by
  obtain ⟨i₀, hi₀⟩ := exists_diag_pos hG htr
  have hT : ∀ i j, 0 ≤ T G gamma i j := fun i j => T_entry_nonneg hG hg0 hg1 i j
  have hrow : ∀ j, 0 < T G gamma i₀ j := fun j => T_row_pos hG htr hg0 hg1 hi₀ j
  have hmain : ∀ k, (∀ i, 0 ≤ rIter (T G gamma) k i) ∧ ∑ i, rIter (T G gamma) k i = 1 := by
    intro k
    induction k with
    | zero =>
      constructor
      · intro i
        show 0 ≤ 1 / (n : ℚ)
        positivity
      · show (∑ _i : Fin n, 1 / (n : ℚ)) = 1
        rw [Finset.sum_const, Finset.card_univ, Fintype.card_fin, nsmul_eq_mul, mul_one_div]
        exact div_self (Nat.cast_ne_zero.mpr hn.ne')
    | succ k ih =>
      exact step_preserves (T G gamma) hT hrow ih.1 ih.2
  refine ⟨hmain, ?_⟩
  intro fuel v h
  obtain ⟨j, hj1, _⟩ := powerLoop_some_conv (T G gamma) fuel 0 v h
  rw [hj1]
  exact hmain (0 + j + 1)

/-- Witness for C4 at the concrete valid input `[[2,1],[1,2]]`, gamma = 0.85. -/
theorem rank_vector_probability_witness :
    ((0 : ℕ) < 2 ∧ (∀ i j, 0 ≤ gEx i j) ∧ gEx.trace ≠ 0 ∧
        (0 : ℚ) ≤ 17/20 ∧ (17 : ℚ)/20 < 1) ∧
      (∀ k, (∀ i, 0 ≤ rIter (T gEx (17/20)) k i) ∧ ∑ i, rIter (T gEx (17/20)) k i = 1) :=
  ⟨⟨by decide, by decide, by decide, by decide, by decide⟩,
   (rank_vector_probability gEx (17/20) (by decide) (by decide) (by decide)
      (by decide) (by decide)).1⟩

/-- Witness for C6 at the 2×3 input `[[1,2,3],[4,5,6]]`. -/
theorem nonsquare_rejected_witness :
    calculate_snprank [[1, 2, 3], [4, 5, 6]] (17/20) 0 = .error "Input is not an NxN matrix" ∧
    runPipeline ["A", "B"] [[1, 2, 3], [4, 5, 6]] (17/20) 0 =
      .error "Input is not an NxN matrix" :=
  nonsquare_rejected ["A", "B"] [[1, 2, 3], [4, 5, 6]] (17/20) 0 (by decide)

/-- Helper: on a square input the rank operation never takes the error
branch; it reduces to the power loop's outcome. -/
theorem calculate_ok_of_square (rows : List (List ℚ)) (gamma : ℚ) (fuel : ℕ)
    (hsq : rows.length = ncols rows) :
    calculate_snprank rows gamma fuel =
      (match powerLoop (T (toMat rows (ncols rows)) gamma) (r0 (ncols rows)) fuel with
        | none => .ok none
        | some r => .ok (some ((List.finRange (ncols rows)).map r, diagList rows))) := by
  unfold calculate_snprank
  rw [if_neg (by simp [hsq])]

/-- General fact (supporting the amended C5): the only explicit error raised
by the rank operation is the non-square shape check — on a square input,
whatever the arithmetic does, `calculate_snprank` never returns an error. -/
theorem error_only_for_nonsquare (rows : List (List ℚ)) (gamma : ℚ) (fuel : ℕ)
    (hsq : rows.length = ncols rows) (e : String) :
    calculate_snprank rows gamma fuel ≠ .error e := by
  rw [calculate_ok_of_square rows gamma fuel hsq]
  cases powerLoop (T (toMat rows (ncols rows)) gamma) (r0 (ncols rows)) fuel with
  | none => exact fun h => Except.noConfusion h
  | some v => exact fun h => Except.noConfusion h

/-- Concrete instance of the no-explicit-error fact at the zero-trace square
input `[[0,1],[1,0]]`. -/
theorem error_only_for_nonsquare_witness :
    calculate_snprank [[0, 1], [1, 0]] (17/20) 1 ≠ .error "Input is not an NxN matrix" :=
  error_only_for_nonsquare [[0, 1], [1, 0]] (17/20) 1 (by decide) "Input is not an NxN matrix"

/-- Helper: folding float-value addition from a NaN accumulator stays NaN. -/
theorem fvFoldl_nan : ∀ l : List FV, l.foldl FV.add FV.nan = FV.nan := by
  intro l
  induction l with
  | nil => rfl
  | cons x xs ih =>
    show List.foldl FV.add (FV.add FV.nan x) xs = FV.nan
    rw [show FV.add FV.nan x = FV.nan from rfl]
    exact ih

/-- Helper: the sum of a nonempty list of NaNs is NaN. -/
theorem fvSum_all_nan {l : List FV} (hne : l ≠ []) (hall : ∀ x ∈ l, x = FV.nan) :
    fvSum l = FV.nan := by
  cases l with
  | nil => exact absurd rfl hne
  | cons x xs =>
    have hx : x = FV.nan := hall x (List.mem_cons_self x xs)
    show List.foldl FV.add (FV.add (FV.fin 0) x) xs = FV.nan
    rw [hx, show FV.add (FV.fin 0) FV.nan = FV.nan from rfl]
    exact fvFoldl_nan xs

/-- Helper: the sum of a list of (float) zeros is zero. -/
theorem fvSum_all_zero : ∀ {l : List FV}, (∀ x ∈ l, x = FV.fin 0) → fvSum l = FV.fin 0 := by
  intro l
  induction l with
  | nil => intro _; rfl
  | cons x xs ih =>
    intro hall
    have hx : x = FV.fin 0 := hall x (List.mem_cons_self x xs)
    show List.foldl FV.add (FV.add (FV.fin 0) x) xs = FV.fin 0
    rw [hx, show FV.add (FV.fin 0) (FV.fin 0) = FV.fin 0 by
      show FV.fin (0 + 0) = FV.fin 0
      norm_num]
    exact ih fun y hy => hall y (List.mem_cons_of_mem x hy)

/-- Helper: adding NaN on the right gives NaN, whatever the left operand. -/
theorem fv_add_nan (x : FV) : FV.add x FV.nan = FV.nan := by
  cases x <;> rfl

/-- Helper: with an all-zero diagonal the teleportation numerator is the
finite zero `0.0 * T_nz[j] = 0.0`, the trace is `0.0`, and `0.0/0.0` is NaN,
so every entry of the float-value transition matrix is NaN. -/
theorem TF_nan {n : ℕ} (G : Fin n → Fin n → FV) (gamma : ℚ)
    (htr : traceF G = FV.fin 0) (hdiag : ∀ i, G i i = FV.fin 0) (i j : Fin n) :
    TF G gamma i j = FV.nan := by
  unfold TF
  rw [htr, hdiag i]
  have h1 : FV.mul (FV.fin 0) (T_nzF G gamma j) = FV.fin 0 := by
    unfold T_nzF
    split
    · show FV.fin (0 * 1) = FV.fin 0
      norm_num
    · show FV.fin (0 * (1 - gamma)) = FV.fin 0
      norm_num
  have h2 : FV.div (FV.fin 0) (FV.fin 0) = FV.nan := by
    simp [FV.div]
  rw [h1, h2, fv_add_nan]

/-- Helper: once the transition matrix is all-NaN, every normalization step
yields an all-NaN vector (NaN propagates through `dot` and the division). -/
theorem stepF_nan {n : ℕ} (hn : 0 < n) (Tm : Fin n → Fin n → FV)
    (hT : ∀ i j, Tm i j = FV.nan) (r : Fin n → FV) (i : Fin n) :
    stepF Tm r i = FV.nan := by
  have hmv : mulVecF Tm r i = FV.nan := by
    refine fvSum_all_nan (List.length_pos.mp (by simpa using hn)) ?_
    intro x hx
    obtain ⟨j, _, rfl⟩ := List.mem_map.mp hx
    rw [hT i j]
    rfl
  show FV.div (mulVecF Tm r i) (fvSum ((List.finRange n).map (mulVecF Tm r))) = FV.nan
  rw [hmv]
  rfl

/-- Helper: the convergence test fails whenever some entry of the new vector
is NaN — `abs(nan - x) < threshold` is false in IEEE comparison. -/
theorem convergedF_false {n : ℕ} (hn : 0 < n) {r r_old : Fin n → FV}
    (hr : r ⟨0, hn⟩ = FV.nan) : convergedF r r_old = false := by
  cases hall : convergedF r r_old with
  | false => rfl
  | true =>
    exfalso
    have hall2 : ((List.finRange n).all fun i =>
        FV.blt (FV.abs (FV.sub (r i) (r_old i))) (FV.fin (1 / 10000))) = true := hall
    have hone := List.all_eq_true.mp hall2 ⟨0, hn⟩ (List.mem_finRange _)
    rw [hr] at hone
    rw [show FV.blt (FV.abs (FV.sub FV.nan (r_old ⟨0, hn⟩))) (FV.fin (1 / 10000)) = false
      from rfl] at hone
    exact Bool.noConfusion hone

/-- Helper: with an all-NaN transition matrix the loop makes no progress at
any fuel — each new iterate is all-NaN, the exit test is always false, and
the uncapped source loop at lines 85–88 would spin forever. -/
theorem powerLoopF_none {n : ℕ} (hn : 0 < n) (Tm : Fin n → Fin n → FV)
    (hT : ∀ i j, Tm i j = FV.nan) :
    ∀ (fuel : ℕ) (r : Fin n → FV), powerLoopF Tm r fuel = none := by
  intro fuel
  induction fuel with
  | zero => intro r; rfl
  | succ f ih =>
    intro r
    have hconv : convergedF (stepF Tm r) r = false :=
      convergedF_false hn (stepF_nan hn Tm hT r ⟨0, hn⟩)
    rw [powerLoopF, if_neg (by simp [hconv])]
    exact ih (stepF Tm r)

/-- C5 counterexample: at the square input `[[0,1],[1,0]]` the trace is
exactly zero, yet in the float-value model — which computes exactly what the
source's IEEE arithmetic computes here — no error is surfaced: the unguarded
`0.0/0.0` makes the transition matrix NaN, and after 100 iterations the loop
is still running (`.ok none`), so the program neither raises an arithmetic
error nor returns a value. -/
theorem zero_trace_not_surfaced_cex :
    traceF (toMatF [[0, 1], [1, 0]] 2) = FV.fin 0 ∧
    TF (toMatF [[0, 1], [1, 0]] 2) (17/20) 0 0 = FV.nan ∧
    calculate_snprankF [[0, 1], [1, 0]] (17/20) 100 = .ok none := by
  exact ⟨by decide, by decide, by decide⟩

/-- C5 amended: zero trace (for the GAIN data model an all-zero diagonal, as
the spec's own error taxonomy says) is not guarded and no arithmetic error is
surfaced to the caller: the division by zero in the teleportation term
silently produces an all-NaN transition matrix (numpy emits at most a
RuntimeWarning), the elementwise convergence test never succeeds on NaN, and
the uncapped loop never returns — for every fuel bound the run yields neither
an error nor a result. -/
theorem zero_trace_silent_nan (rows : List (List ℚ)) (gamma : ℚ) (fuel : ℕ)
    (hsq : rows.length = ncols rows) (hn : 0 < ncols rows)
    (hdiag : ∀ i : Fin (ncols rows), toMatF rows (ncols rows) i i = FV.fin 0) :
    traceF (toMatF rows (ncols rows)) = FV.fin 0 ∧
    (∀ i j, TF (toMatF rows (ncols rows)) gamma i j = FV.nan) ∧
    calculate_snprankF rows gamma fuel = .ok none := by
  have htr : traceF (toMatF rows (ncols rows)) = FV.fin 0 := by
    refine fvSum_all_zero ?_
    intro x hx
    obtain ⟨i, _, rfl⟩ := List.mem_map.mp hx
    exact hdiag i
  have hT : ∀ i j, TF (toMatF rows (ncols rows)) gamma i j = FV.nan :=
    fun i j => TF_nan _ gamma htr hdiag i j
  refine ⟨htr, hT, ?_⟩
  unfold calculate_snprankF
  rw [if_neg (by simp [hsq]), powerLoopF_none hn _ hT fuel (r0F (ncols rows))]

/-- Witness for the amended C5 at `[[0,1],[1,0]]` with gamma = 0.85. -/
theorem zero_trace_silent_nan_witness :
    traceF (toMatF [[0, 1], [1, 0]] 2) = FV.fin 0 ∧
      (∀ i j, TF (toMatF [[0, 1], [1, 0]] 2) (17/20) i j = FV.nan) ∧
      calculate_snprankF [[0, 1], [1, 0]] (17/20) 7 = .ok none :=
  zero_trace_silent_nan [[0, 1], [1, 0]] (17/20) 7 (by decide) (by decide) (by decide)

/-- C7 counterexample: the header has 2 name tokens while every data row has
width 3, yet the program does not fail: parsing succeeds (the header width is
never compared to the data width), the pipeline completes, and output rows
are produced. -/
theorem header_width_mismatch_cex :
    (recsId3.all fun row => row.length = 3) = true ∧
    (["A", "B"] : List String).length = 2 ∧
    fullRun ["A", "B"] recsId3 (17/20) 2 = .ok (some [("A", 1/3, 1), ("B", 1/3, 1)]) := by
  exact ⟨by decide, by decide, by decide⟩

/-- C7 amended: parsing fails exactly when some data token is not a valid
number or the data rows have mutually inconsistent widths; the header width N
is never consulted, so a body whose rows all have some common width different
from N parses successfully. -/
theorem parse_failure_characterization (records : List (List (Option ℚ))) :
    (buildGAIN records = .ok (records.map fun row => row.map fun t => t.getD 0) ↔
      ((∀ row ∈ records, row.length = (records.headD []).length) ∧
        ∀ row ∈ records, ∀ t ∈ row, t.isSome = true)) ∧
    ((∃ e, buildGAIN records = .error e) ↔
      ¬ ((∀ row ∈ records, row.length = (records.headD []).length) ∧
        ∀ row ∈ records, ∀ t ∈ row, t.isSome = true)) := by
  constructor
  · constructor
    · intro h
      unfold buildGAIN at h
      by_cases h1 : (records.all fun row => row.length = (records.headD []).length) = true
      · by_cases h2 : (records.all fun row => row.all fun t => t.isSome) = true
        · exact ⟨by simpa using h1, by simpa using h2⟩
        · rw [if_pos h1, if_neg h2] at h
          exact Except.noConfusion h
      · rw [if_neg h1] at h
        exact Except.noConfusion h
    · rintro ⟨hw, hp⟩
      unfold buildGAIN
      rw [if_pos (by simpa using hw), if_pos (by simpa using hp)]
  · constructor
    · rintro ⟨e, he⟩ ⟨hw, hp⟩
      unfold buildGAIN at he
      rw [if_pos (by simpa using hw), if_pos (by simpa using hp)] at he
      exact Except.noConfusion he
    · intro hcon
      unfold buildGAIN
      by_cases hw : (records.all fun row => row.length = (records.headD []).length) = true
      · have hp : ¬ (records.all fun row => row.all fun t => t.isSome) = true := by
          intro hp
          exact hcon ⟨by simpa using hw, by simpa using hp⟩
        rw [if_pos hw, if_neg hp]
        exact ⟨_, rfl⟩
      · rw [if_neg hw]
        exact ⟨_, rfl⟩

/-- Witness for the amended C7: a record set with an unparseable token is
rejected by the loader. -/
theorem parse_failure_characterization_witness :
    ∃ e, buildGAIN [[some 1, none]] = .error e :=
  (parse_failure_characterization [[some 1, none]]).2.mpr (by decide)

/-- C8: the formatter sorts the zipped (name, score, main-effect) rows by
score in descending order; the sort is stable — for every score value, the
rows carrying that score appear in the output in their original input order —
and on the spec's example (scores `[0.5, 0.9, 0.1]`, names A, B, C) the
output order is B, A, C. -/
theorem print_sorted_stable (SNPs : List String) (snp_rank ig : List ℚ)
    (_h1 : SNPs.length = snp_rank.length) (_h2 : snp_rank.length = ig.length) :
    List.Sorted scoreGE (print_to_file SNPs snp_rank ig) ∧
    (∀ s : ℚ,
      (print_to_file SNPs snp_rank ig).filter (fun v => decide (v.2.1 = s)) =
        (SNPs.zip (snp_rank.zip ig)).filter (fun v => decide (v.2.1 = s))) ∧
    print_to_file ["A", "B", "C"] [1/2, 9/10, 1/10] [1, 2, 3] =
      [("B", 9/10, 2), ("A", 1/2, 1), ("C", 1/10, 3)] := by
  refine ⟨List.sorted_insertionSort scoreGE _, ?_, by decide⟩
  intro s
  show (List.insertionSort scoreGE (SNPs.zip (snp_rank.zip ig))).filter
      (fun v => decide (v.2.1 = s)) =
    (SNPs.zip (snp_rank.zip ig)).filter (fun v => decide (v.2.1 = s))
  set l := SNPs.zip (snp_rank.zip ig) with hl
  set p : (String × ℚ × ℚ) → Bool := fun v => decide (v.2.1 = s) with hp
  have hmemp : ∀ v ∈ l.filter p, v.2.1 = s := fun v hv => by
    simpa [hp] using List.of_mem_filter hv
  have hpair : (l.filter p).Pairwise scoreGE := by
    apply List.pairwise_of_forall_mem_list
    intro a ha b hb
    show b.2.1 ≤ a.2.1
    rw [hmemp a ha, hmemp b hb]
  have hsub1 : List.Sublist (l.filter p) (List.insertionSort scoreGE l) :=
    List.sublist_insertionSort hpair (List.filter_sublist l)
  have heq : (l.filter p).filter p = l.filter p :=
    List.filter_eq_self.mpr fun a ha => List.of_mem_filter ha
  have hsub2 : List.Sublist (l.filter p) ((List.insertionSort scoreGE l).filter p) := by
    have hstep := hsub1.filter p
    rwa [heq] at hstep
  have hlen : ((List.insertionSort scoreGE l).filter p).length = (l.filter p).length :=
    ((List.perm_insertionSort scoreGE l).filter p).length_eq
  exact (hsub2.eq_of_length hlen.symm).symm

/-- Witness for C8 at the spec's example triple. -/
theorem print_sorted_stable_witness :
    ((["A", "B", "C"] : List String).length = ([1/2, 9/10, 1/10] : List ℚ).length ∧
        ([1/2, 9/10, 1/10] : List ℚ).length = ([1, 2, 3] : List ℚ).length) ∧
      List.Sorted scoreGE (print_to_file ["A", "B", "C"] [1/2, 9/10, 1/10] [1, 2, 3]) :=
  ⟨⟨by decide, by decide⟩,
   (print_sorted_stable ["A", "B", "C"] [1/2, 9/10, 1/10] [1, 2, 3]
      (by decide) (by decide)).1⟩

/-- C9: the rank operation returns the diagonal of the original matrix
unchanged alongside the scores, and the formatter only reorders its input
rows (its output is a permutation of the zipped triples — no entry is
altered).  Mutation of G or the name list cannot occur: in this embedding
every operation is a pure function of its inputs, mirroring the source, which
never writes to `self.GAIN` or `self.SNPs` after loading. -/
theorem frame_diag_names :
    (∀ (rows : List (List ℚ)) (gamma : ℚ) (fuel : ℕ) (r ig : List ℚ),
        calculate_snprank rows gamma fuel = .ok (some (r, ig)) → ig = diagList rows) ∧
    (∀ (SNPs : List String) (r ig : List ℚ),
        (print_to_file SNPs r ig).Perm (SNPs.zip (r.zip ig))) := by
  constructor
  · intro rows gamma fuel r ig h
    unfold calculate_snprank at h
    split at h
    · exact Except.noConfusion h
    · split at h
      · exact Option.noConfusion (Except.ok.inj h)
      · have h2 := Option.some.inj (Except.ok.inj h)
        injection h2 with h3 h4
        exact h4.symm
  · intro SNPs r ig
    exact List.perm_insertionSort scoreGE _

/-- Witness for C9: the diagonal `[2,2]` of `[[2,1],[1,2]]` is returned
unchanged, and the formatter permutes the zipped rows. -/
theorem frame_diag_names_witness :
    ([2, 2] : List ℚ) = diagList [[2, 1], [1, 2]] ∧
      (print_to_file ["S1", "S2"] [1/2, 1/2] [2, 2]).Perm
        (["S1", "S2"].zip (([1/2, 1/2] : List ℚ).zip ([2, 2] : List ℚ))) :=
  ⟨frame_diag_names.1 [[2, 1], [1, 2]] (17/20) 1 [1/2, 1/2] [2, 2] (by decide),
   frame_diag_names.2 ["S1", "S2"] [1/2, 1/2] [2, 2]⟩

/-- C10 (implicit): the number of node names is never checked against the
matrix dimension N: for any square body, the pipeline never errors whatever
the header length, and when it completes the formatter emits exactly
min(number of names, N) rows — Python's truncating `zip` silently drops the
surplus names or scores. -/
theorem names_never_checked (SNPs : List String) (rows : List (List ℚ)) (gamma : ℚ)
    (fuel : ℕ) (hsq : rows.length = ncols rows) :
    (∀ e, runPipeline SNPs rows gamma fuel ≠ .error e) ∧
    (∀ out, runPipeline SNPs rows gamma fuel = .ok (some out) →
        out.length = min SNPs.length (ncols rows)) := by
  have hkey := calculate_ok_of_square rows gamma fuel hsq
  constructor
  · intro e h
    unfold runPipeline at h
    rw [hkey] at h
    cases hm : powerLoop (T (toMat rows (ncols rows)) gamma) (r0 (ncols rows)) fuel with
    | none =>
      rw [hm] at h
      exact Except.noConfusion h
    | some v =>
      rw [hm] at h
      exact Except.noConfusion h
  · intro out h
    unfold runPipeline at h
    rw [hkey] at h
    cases hm : powerLoop (T (toMat rows (ncols rows)) gamma) (r0 (ncols rows)) fuel with
    | none =>
      rw [hm] at h
      exact Option.noConfusion (Except.ok.inj h)
    | some v =>
      rw [hm] at h
      have h2 := Option.some.inj (Except.ok.inj h)
      rw [← h2]
      unfold print_to_file diagList
      simp only [List.length_insertionSort, List.length_zip, List.length_map,
        List.length_finRange]
      omega

/-- Witness for C10: a 2-name header with a square 3×3 body completes and
emits min(2,3) = 2 rows. -/
theorem names_never_checked_witness :
    ([("A", 1/3, 1), ("B", 1/3, 1)] : List (String × ℚ × ℚ)).length =
      min (["A", "B"] : List String).length (ncols [[1, 0, 0], [0, 1, 0], [0, 0, 1]]) :=
  (names_never_checked ["A", "B"] [[1, 0, 0], [0, 1, 0], [0, 0, 1]] (17/20) 2
      (by decide)).2 [("A", 1/3, 1), ("B", 1/3, 1)] (by decide)

end SNPrank
